import Mathlib

/-!
Verification development for the netmon traffic-monitoring daemon.

The definitions below are a shallow embedding of the Python sources:
`netmon/parser.py`, `netmon/collector.py` (TrafficBuffer), `netmon/database.py`
(save_traffic, cleanup_old_data, log_webhook_result), `netmon/webhook.py`
(WebhookSender.send) and `netmon/daemon.py` (_webhook_worker).  Python floats
are modelled as rationals, machine integers as `Int`/`Nat`, and the fixed
regular expressions of `parser.py` are hand-compiled to deterministic
character-list matchers (ASCII digits).
-/

/-! ## Parser embedding (`netmon/parser.py`) -/

/-- Python truthiness of a string: nonempty. -/
def pyTruthy (s : String) : Bool :=
  !s.toList.isEmpty

/-- Python `str.strip()` on a character list: drop whitespace at both ends. -/
def trimChars (cs : List Char) : List Char :=
  ((cs.dropWhile Char.isWhitespace).reverse.dropWhile Char.isWhitespace).reverse

/-- Python `str.strip()`. -/
def pyStrip (s : String) : String :=
  String.mk (trimChars s.toList)

/-- Python `str.split(sep)` with a one-character separator: split on every
occurrence, keeping empty pieces. -/
def splitOnChar (sep : Char) : List Char → List (List Char)
  | [] => [[]]
  | c :: rest =>
    let r := splitOnChar sep rest
    if c = sep then [] :: r
    else
      match r with
      | h :: t => (c :: h) :: t
      | [] => [[c]]

/-- Python `str.split(sep)` on strings. -/
def pySplit (sep : Char) (s : String) : List String :=
  (splitOnChar sep s.toList).map String.mk

/-- Python `str.isdigit()` restricted to ASCII: nonempty and all digits. -/
def pyIsDigit (s : String) : Bool :=
  !s.toList.isEmpty && s.toList.all Char.isDigit

/-- Split a character list into its maximal leading digit run and the rest. -/
def digitSpan (cs : List Char) : List Char × List Char :=
  (cs.takeWhile Char.isDigit, cs.dropWhile Char.isDigit)

/-- Match `\d{1,3}` followed by the literal character `c` (regex
backtracking collapses to: the maximal digit run has length 1..3 and is
followed by `c`).  Returns the digit run and the rest after `c`. -/
def seg3Then (c : Char) (cs : List Char) : Option (List Char × List Char) :=
  match digitSpan cs with
  | (run, r :: rs) =>
      if 1 ≤ run.length ∧ run.length ≤ 3 ∧ r = c then some (run, rs) else none
  | (_, []) => none

/-- Match `\d+` followed by the literal character `c`; returns the rest. -/
def digitsThen (c : Char) (cs : List Char) : Option (List Char) :=
  match digitSpan cs with
  | (run, r :: rs) => if 1 ≤ run.length ∧ r = c then some rs else none
  | (_, []) => none

/-- Match the anchored pattern `\d{1,3}\.\d{1,3}\.\d{1,3}\.\d{1,3}` at the
start of `cs`; the last segment is greedy (up to 3 digits).  Returns the
matched text. -/
def quadAt (cs : List Char) : Option (List Char) :=
  match seg3Then '.' cs with
  | none => none
  | some (a, cs) =>
    match seg3Then '.' cs with
    | none => none
    | some (b, cs) =>
      match seg3Then '.' cs with
      | none => none
      | some (c3, cs) =>
        match digitSpan cs with
        | (run, _) =>
          if 1 ≤ run.length then
            some (a ++ '.' :: b ++ '.' :: c3 ++ '.' :: run.take 3)
          else none

/-- Match `^\d{1,3}\.\d{1,3}\.\d{1,3}\.\d{1,3}:\d+-` at the start of `cs`
(the second invalid-name pattern of `validate_app_name`). -/
def quadPortDashAt (cs : List Char) : Bool :=
  (match seg3Then '.' cs with
   | none => none
   | some (_, cs) =>
     match seg3Then '.' cs with
     | none => none
     | some (_, cs) =>
       match seg3Then '.' cs with
       | none => none
       | some (_, cs) =>
         match seg3Then ':' cs with
         | none => none
         | some (_, cs) => digitsThen '-' cs).isSome

/-- Match the connection-pair pattern
`(\d{1,3}\.\d{1,3}\.\d{1,3}\.\d{1,3}):\d+-(\d{1,3}\.\d{1,3}\.\d{1,3}\.\d{1,3}):\d+`
anchored at the start of `cs`; returns the second (remote) address group. -/
def connPairAt (cs : List Char) : Option (List Char) :=
  match seg3Then '.' cs with
  | none => none
  | some (_, cs) =>
  match seg3Then '.' cs with
  | none => none
  | some (_, cs) =>
  match seg3Then '.' cs with
  | none => none
  | some (_, cs) =>
  match seg3Then ':' cs with
  | none => none
  | some (_, cs) =>
  match digitsThen '-' cs with
  | none => none
  | some cs =>
  match seg3Then '.' cs with
  | none => none
  | some (a, cs) =>
  match seg3Then '.' cs with
  | none => none
  | some (b, cs) =>
  match seg3Then '.' cs with
  | none => none
  | some (c3, cs) =>
  match seg3Then ':' cs with
  | none => none
  | some (d, cs) =>
  match digitSpan cs with
  | (run, _) =>
    if 1 ≤ run.length then some (a ++ '.' :: b ++ '.' :: c3 ++ '.' :: d)
    else none

/-- Model of `re.search` for the connection-pair pattern: try every start
position, leftmost first. -/
def searchConnPair : List Char → Option (List Char)
  | [] => none
  | c :: cs =>
    match connPairAt (c :: cs) with
    | some ip => some ip
    | none => searchConnPair cs

/-- Model of `re.search` for a single dotted quad: leftmost start position. -/
def searchQuad : List Char → Option (List Char)
  | [] => none
  | c :: cs =>
    match quadAt (c :: cs) with
    | some m => some m
    | none => searchQuad cs

/-- Model of `extract_remote_ip` from `netmon/parser.py`: first the
connection-pair pattern (take the remote group), else any single dotted quad, else none. -/
def extractRemoteIp (progInfo : String) : Option String :=
  match searchConnPair progInfo.toList with
  | some ip => some (String.mk ip)
  | none =>
    match searchQuad progInfo.toList with
    | some m => some (String.mk m)
    | none => none

/-- Index of the first part satisfying Python `str.isdigit`, counting from `i`. -/
def firstDigitIdx : List String → Nat → Option Nat
  | [], _ => none
  | p :: ps, i => if pyIsDigit p then some i else firstDigitIdx ps (i + 1)

/-- Fallback of `extract_app_name`: scan parts in reverse for the last part
that is nonempty, not all digits, and contains neither `:` nor `-`. -/
def fallbackPart (parts : List String) : Option String :=
  parts.reverse.find? fun p =>
    pyTruthy p && !pyIsDigit p && !p.toList.contains ':' && !p.toList.contains '-'

/-- Model of `extract_app_name` from `netmon/parser.py`; the Python `None` is `none`;
note that the part before the PID falls back when it is the empty string
(`if not app_name`). -/
def extractAppName (progInfo : String) : Option String :=
  if progInfo.toList.contains '/' then
    let parts := pySplit '/' progInfo
    let fromPid : Option String :=
      match firstDigitIdx parts 0 with
      | some i => if 0 < i then some (parts.getD (i - 1) "") else none
      | none => none
    match fromPid with
    | some a => if a = "" then fallbackPart parts else some a
    | none => fallbackPart parts
  else
    some ((pySplit '-' ((pySplit '/' progInfo).headD "")).headD "")

/-- The reserved tokens of `validate_app_name`. -/
def reservedNames : List String := ["unknown", "TCP", "UDP", ""]

/-- Model of `validate_app_name` from `netmon/parser.py`: `None`/empty map to
`"unknown"`; otherwise the name is stripped and checked against the invalid
patterns (all digits, dotted-quad start, `ip:port-` start, reserved token). -/
def validateAppName : Option String → String
  | none => "unknown"
  | some s =>
    if s = "" then "unknown"
    else
      let t := pyStrip s
      if pyIsDigit t ∨ (quadAt t.toList).isSome ∨ quadPortDashAt t.toList
          ∨ t ∈ reservedNames then "unknown"
      else t

/-- Numeric value of a digit run. -/
def digitsVal (cs : List Char) : Nat :=
  cs.foldl (fun a c => a * 10 + (c.toNat - 48)) 0

/-- Exponent suffix of a Python float literal: optional sign then digits,
consuming the whole rest. -/
def expPart (cs : List Char) : Option Int :=
  let signRest : Int × List Char :=
    match cs with
    | '+' :: r => (1, r)
    | '-' :: r => (-1, r)
    | _ => (1, cs)
  match digitSpan signRest.2 with
  | (ds, []) => if 1 ≤ ds.length then some (signRest.1 * digitsVal ds) else none
  | (_, _ :: _) => none

/-- Unsigned mantissa with optional fraction and optional exponent, consuming
the whole input. -/
def pyFloatCore (cs : List Char) : Option ℚ :=
  let (ip, r1) := digitSpan cs
  let fracRest : Bool × List Char × List Char :=
    match r1 with
    | '.' :: rest =>
        let (f, r) := digitSpan rest
        (true, f, r)
    | _ => (false, [], r1)
  let fp := fracRest.2.1
  let r2 := fracRest.2.2
  if ip.isEmpty && (!fracRest.1 || fp.isEmpty) then none
  else
    let mant : ℚ := (digitsVal ip : ℚ) + (digitsVal fp : ℚ) / (10 : ℚ) ^ fp.length
    match r2 with
    | [] => some mant
    | c :: rest =>
      if c = 'e' ∨ c = 'E' then
        match expPart rest with
        | some e => some (mant * (10 : ℚ) ^ e)
        | none => none
      else none

/-- Python `float(s)` as a rational: strip whitespace, optional sign, decimal
mantissa with optional fraction and exponent (ASCII digits; the `inf`/`nan`
forms and underscore separators are out of the model and parse to `none`). -/
def pyFloatOpt (s : String) : Option ℚ :=
  match trimChars s.toList with
  | '+' :: rest => pyFloatCore rest
  | '-' :: rest => (pyFloatCore rest).map Neg.neg
  | cs => pyFloatCore cs

/-- Model of `parse_nethogs_line` from `netmon/parser.py`: trim; skip empty lines and
refresh markers; split on tab; require at least 3 fields; convert the two
kilobyte fields to bytes; extract and validate the app name and extract the
remote IP.  Skipped lines yield `(none, none, 0, 0)`. -/
def parseNethogsLine (line : String) : Option String × Option String × ℚ × ℚ :=
  let l := pyStrip line
  if l.toList.isEmpty || "Refreshing".toList.isPrefixOf l.toList
  then (none, none, 0, 0)
  else
    let parts := pySplit '\t' l
    if parts.length < 3 then (none, none, 0, 0)
    else
      match pyFloatOpt (parts.getD 1 ""), pyFloatOpt (parts.getD 2 "") with
      | some sKB, some rKB =>
        let progInfo := parts.getD 0 ""
        (some (validateAppName (extractAppName progInfo)),
         extractRemoteIp progInfo, sKB * 1024, rKB * 1024)
      | _, _ => (none, none, 0, 0)

/-! ## Traffic buffer embedding (`netmon/collector.py`, class `TrafficBuffer`) -/

/-- One per-app aggregate of the buffer: accumulated sent/recv bytes (Python
floats, modelled as rationals) and the set of observed remote IPs (a
duplicate-free list). -/
structure BufEntry where
  sent : ℚ
  recv : ℚ
  ips : List String
deriving DecidableEq, Repr

/-- One `TrafficBuffer.add(app, sent, recv, ip)` call. -/
structure AddOp where
  app : String
  sent : ℚ
  recv : ℚ
  ip : Option String
deriving DecidableEq, Repr

/-- State of the buffer map (a defaultdict whose default entry has zero totals
and an empty IP set), as an association list keyed by app name. -/
def TrafficBufferState := List (String × BufEntry)

/-- Model of the guarded IP insertion in `add` — Python truthiness skips both
`None` and the empty string; set insertion is idempotent. -/
def addIp (ips : List String) : Option String → List String
  | none => ips
  | some ip => if ip = "" then ips else if ip ∈ ips then ips else ips ++ [ip]

/-- Apply one `add` call to one entry. -/
def entryAdd (e : BufEntry) (op : AddOp) : BufEntry :=
  ⟨e.sent + op.sent, e.recv + op.recv, addIp e.ips op.ip⟩

/-- Model of `TrafficBuffer.add`: accumulate into the entry of the app,
creating it (with zero totals and empty IP set) on first use. -/
def bufAdd : TrafficBufferState → AddOp → TrafficBufferState
  | [], op => [(op.app, entryAdd ⟨0, 0, []⟩ op)]
  | (a, e) :: rest, op =>
    if a = op.app then (a, entryAdd e op) :: rest
    else (a, e) :: bufAdd rest op

/-- Run a sequence of `add` calls against the empty buffer. -/
def bufRun (ops : List AddOp) : TrafficBufferState :=
  ops.foldl bufAdd []

/-- Model of `TrafficBuffer.flush`: return the current contents and reset to empty. -/
def bufFlush (buf : TrafficBufferState) : TrafficBufferState × TrafficBufferState :=
  (buf, [])

/-- Model of `TrafficBuffer.is_empty`: length of the map is zero. -/
def bufIsEmpty (buf : TrafficBufferState) : Bool :=
  buf.length = 0

/-- Lookup the entry of an app in the buffer. -/
def bufLookup : TrafficBufferState → String → Option BufEntry
  | [], _ => none
  | (a, e) :: rest, app => if a = app then some e else bufLookup rest app

/-- Flushed sent total for an app (0 if the app has no entry). -/
def sentOf (buf : TrafficBufferState) (app : String) : ℚ :=
  (bufLookup buf app).elim 0 BufEntry.sent

/-- Flushed recv total for an app (0 if the app has no entry). -/
def recvOf (buf : TrafficBufferState) (app : String) : ℚ :=
  (bufLookup buf app).elim 0 BufEntry.recv

/-- Test whether `ip` is in the flushed IP set of the app. -/
def bufHasIp (buf : TrafficBufferState) (app ip : String) : Bool :=
  match bufLookup buf app with
  | some e => ip ∈ e.ips
  | none => false

/-! ## Persistence embedding (`netmon/database.py`, `save_traffic`) -/

/-- One row of the `traffic` table. -/
structure PersistRow where
  app : String
  remote_ip : Option String
  bytes_sent : ℤ
  bytes_recv : ℤ
deriving DecidableEq, Repr

/-- Python `int(x)` on a rational: truncation toward zero. -/
def pyInt (q : ℚ) : ℤ :=
  if 0 ≤ q then ⌊q⌋ else ⌈q⌉

/-- Python float floor-division `x // n`. -/
def pyFloorDiv (a b : ℚ) : ℚ :=
  (⌊a / b⌋ : ℤ)

/-- The rows `save_traffic` inserts for one app entry of the flushed map:
zero-traffic entries are dropped; with observed IPs the totals are split as
`base = int(total // n)` per IP plus one unit to the first
`int(total) - base*n` IPs in iteration order; with no IP a single row with a
null IP is inserted. -/
def saveAppRows (app : String) (sent recv : ℚ) (ips : List String) : List PersistRow :=
  if 0 < sent ∨ 0 < recv then
    if ips = [] then
      [⟨app, none, pyInt sent, pyInt recv⟩]
    else
      ips.enum.map fun p =>
        ⟨app, some p.2,
          pyInt (pyFloorDiv sent ips.length) +
            (if (p.1 : ℤ) < pyInt sent - pyInt (pyFloorDiv sent ips.length) * ips.length
             then 1 else 0),
          pyInt (pyFloorDiv recv ips.length) +
            (if (p.1 : ℤ) < pyInt recv - pyInt (pyFloorDiv recv ips.length) * ips.length
             then 1 else 0)⟩
  else []

/-- Model of `save_traffic` over a whole flushed map. -/
def saveTraffic (data : List (String × BufEntry)) : List PersistRow :=
  data.flatMap fun p => saveAppRows p.1 p.2.sent p.2.recv p.2.ips

/-! ## Retention cleanup embedding (`netmon/database.py`, `cleanup_old_data`) -/

/-- A stored `traffic` row with its insertion timestamp (seconds). -/
structure StoredRow where
  timestamp : ℤ
  app : String
  remote_ip : Option String
  bytes_sent : ℤ
  bytes_recv : ℤ
deriving DecidableEq, Repr

/-- Model of `cleanup_old_data`: delete the traffic rows with
`timestamp < now - retention_days` and return the remaining table together
with the number of deleted rows (`cursor.rowcount`). -/
def cleanupOldData (rows : List StoredRow) (now : ℤ) (retentionDays : ℕ) :
    List StoredRow × ℕ :=
  let cutoff := now - (retentionDays : ℤ) * 86400
  (rows.filter fun r => !decide (r.timestamp < cutoff),
   (rows.filter fun r => decide (r.timestamp < cutoff)).length)

/-! ## Webhook log embedding (`netmon/database.py`, `log_webhook_result`) -/

/-- One row of the `webhook_logs` table. -/
structure LogEntry where
  status : String
  code : ℤ
  message : String
deriving DecidableEq, Repr

/-- Keep the last `n` elements of a list (the 100 most recent log rows). -/
def keepLast (n : ℕ) (l : List α) : List α :=
  l.drop (l.length - n)

/-- Model of `log_webhook_result`: insert one row with the message truncated to 500
characters, then delete every row not among the 100 most recent. -/
def logWebhookResult (log : List LogEntry) (status : String) (code : ℤ)
    (message : String) : List LogEntry :=
  keepLast 100 (log ++ [⟨status, code, message.take 500⟩])

/-! ## Webhook sender embedding (`netmon/webhook.py`, `WebhookSender.send`) -/

/-- The observable outcome of one HTTP POST attempt: a response with a status
code, or a network error. -/
inductive AttemptOutcome
  | response (code : ℕ)
  | netError
deriving DecidableEq, Repr

/-- Whether `response.raise_for_status()` does not raise: only a 2xx status.
The pinned dependency `httpx>=0.25.0` raises `HTTPStatusError` for every
non-success response — informational, redirect, client-error and
server-error alike. -/
def attemptOk : AttemptOutcome → Bool
  | .response code => 200 ≤ code && code < 300
  | .netError => false

/-- The retry loop of `WebhookSender.send`, recursing over the remaining
attempts: returns (result, attempts made, sleeps performed).  A successful
attempt returns immediately; a failed attempt sleeps `retry_delay` unless it
was the last one. -/
def sendFrom (outcomes : ℕ → AttemptOutcome) (attempt : ℕ) : ℕ → Bool × ℕ × ℕ
  | 0 => (false, 0, 0)
  | r + 1 =>
    if attemptOk (outcomes attempt) then (true, 1, 0)
    else
      let rest := sendFrom outcomes (attempt + 1) r
      (rest.1, rest.2.1 + 1, rest.2.2 + if r = 0 then 0 else 1)

/-- Model of `WebhookSender.send` with `max_retries` attempts whose outcomes are given
by `outcomes`. -/
def sendRun (outcomes : ℕ → AttemptOutcome) (maxRetries : ℕ) : Bool × ℕ × ℕ :=
  sendFrom outcomes 0 maxRetries

/-- Success notion used by the original claim: a 2xx/3xx HTTP status. -/
def ok23 : AttemptOutcome → Bool
  | .response code => 200 ≤ code && code < 400
  | .netError => false

/-- Success notion of the amended claim: a 2xx HTTP status. -/
def ok2xx : AttemptOutcome → Bool
  | .response code => 200 ≤ code && code < 300
  | .netError => false

/-! ## Webhook worker embedding (`netmon/daemon.py`, `_webhook_worker`) -/

/-- The persisted webhook configuration row (timestamps in seconds). -/
structure WebhookCfg where
  url : Option String
  interval_minutes : ℤ
  enabled : Bool
  last_sent : Option ℤ
deriving DecidableEq, Repr

/-- Configured test of the worker (config row present, enabled, URL set) —
Python truthiness of the URL excludes `None` and the empty string. -/
def cfgConfigured (c : WebhookCfg) : Bool :=
  c.enabled && (match c.url with | some u => u ≠ "" | none => false)

/-- Due test of the worker: elapsed at least the interval in seconds, treating
an absent `last_sent` as immediately due. -/
def shouldSend (c : WebhookCfg) (now : ℤ) : Bool :=
  match c.last_sent with
  | some last => c.interval_minutes * 60 ≤ now - last
  | none => true

/-- One wakeup of the webhook worker with the webhook configured: returns the
number of sends performed and the updated configuration (on a successful send,
`update_webhook_last_sent` stamps the send time). -/
def workerTick (c : WebhookCfg) (now : ℤ) (sendSucceeds : Bool) : ℕ × WebhookCfg :=
  if cfgConfigured c then
    if shouldSend c now then
      (1, if sendSucceeds then { c with last_sent := some now } else c)
    else (0, c)
  else (0, c)

/-! ## Helper lemmas -/

lemma validateAppName_ne_empty (o : Option String) : validateAppName o ≠ "" := by
  match o with
  | none => simp [validateAppName]
  | some s =>
    by_cases hs : s = ""
    · simp [validateAppName, hs]
    · simp only [validateAppName, if_neg hs]
      split
      · simp
      · rename_i hcond
        intro ht
        exact hcond (Or.inr (Or.inr (Or.inr (by simp [ht, reservedNames]))))

lemma length_filter_add_length_filter_not (l : List α) (p : α → Bool) :
    (l.filter p).length + (l.filter fun a => !p a).length = l.length := by
  induction l with
  | nil => rfl
  | cons a l ih =>
    by_cases h : p a <;> simp [List.filter_cons, h, ← ih] <;> omega

/-! ## Claims about the parser -/

/-- Claim C3: parsing the line
`/usr/bin/firefox/4821/192.168.1.5:443-93.184.216.34:443<TAB>1.0<TAB>2.0`
yields app name `firefox`, remote IP `93.184.216.34` (the second address of
the connection pair), bytes_sent = 1024 and bytes_recv = 2048 (the kilobyte
fields multiplied by 1024). -/
theorem parse_scenario_firefox :
    parseNethogsLine
        "/usr/bin/firefox/4821/192.168.1.5:443-93.184.216.34:443\t1.0\t2.0"
      = (some "firefox", some "93.184.216.34", 1024, 2048) := by
  have h : parseNethogsLine
        "/usr/bin/firefox/4821/192.168.1.5:443-93.184.216.34:443\t1.0\t2.0"
      = (some "firefox", some "93.184.216.34",
         (((1 : ℕ) : ℚ) + ((0 : ℕ) : ℚ) / (10 : ℚ) ^ (1 : ℕ)) * 1024,
         (((2 : ℕ) : ℚ) + ((0 : ℕ) : ℚ) / (10 : ℚ) ^ (1 : ℕ)) * 1024) := by
    rfl
  rw [h]
  norm_num

/-- Claim C4 (amended): `validate_app_name` maps each of `"1234"`,
`"10.0.0.5"`, `"10.0.0.5:80-"`, `"unknown"`, `"TCP"`, `""` and `None` to the
sentinel `"unknown"`, and for every input whose whitespace-stripped form is
non-empty, not purely numeric, not starting with a dotted-quad, and not a
reserved token, returns that stripped form (so `" firefox "` maps to
`"firefox"`, and a name with no surrounding whitespace such as `"firefox"`
is returned unchanged). -/
theorem validate_app_name_spec :
    validateAppName (some "1234") = "unknown" ∧
    validateAppName (some "10.0.0.5") = "unknown" ∧
    validateAppName (some "10.0.0.5:80-") = "unknown" ∧
    validateAppName (some "unknown") = "unknown" ∧
    validateAppName (some "TCP") = "unknown" ∧
    validateAppName (some "") = "unknown" ∧
    validateAppName none = "unknown" ∧
    ∀ s : String, pyStrip s ≠ "" → pyIsDigit (pyStrip s) = false →
      (quadAt (pyStrip s).toList).isSome = false →
      quadPortDashAt (pyStrip s).toList = false →
      pyStrip s ∉ reservedNames → validateAppName (some s) = pyStrip s := by
  refine ⟨by decide, by decide, by decide, by decide, by decide, by decide,
    by decide, ?_⟩
  intro s hne hdig hquad hqpd hres
  have hs : s ≠ "" := by
    intro h
    subst h
    exact hne rfl
  have hq : quadAt (pyStrip s).toList = none := by
    cases hcase : quadAt (pyStrip s).toList with
    | none => rfl
    | some v => rw [hcase] at hquad; simp at hquad
  simp only [validateAppName, if_neg hs]
  rw [if_neg]
  simp only [not_or]
  have hq2 : quadAt (pyStrip s).data = none := hq
  have hqpd2 : quadPortDashAt (pyStrip s).data = false := hqpd
  exact ⟨by simp [hdig], by simp [hq2], by simp [hqpd2], by simp [hres]⟩

/-- Witness for C4: the pass-through clause at the whitespace-bearing input
`" firefox "`, whose stripped form is returned. -/
theorem validate_app_name_spec_witness :
    validateAppName (some " firefox ") = "firefox" := by
  rw [validate_app_name_spec.2.2.2.2.2.2.2 " firefox " (by decide) (by decide)
    (by decide) (by decide) (by decide)]
  decide

/-- Counterexample for C4 as stated: the input `" firefox "` is non-empty,
not purely numeric, does not start with a dotted-quad and is not a reserved
token, yet it is not returned unchanged — the code strips whitespace first. -/
theorem validate_app_name_strip_counterexample :
    " firefox " ≠ "" ∧
    pyIsDigit " firefox " = false ∧
    (quadAt " firefox ".toList).isSome = false ∧
    quadPortDashAt " firefox ".toList = false ∧
    " firefox " ∉ reservedNames ∧
    validateAppName (some " firefox ") ≠ " firefox " := by
  decide

/-- Claim C10: `parse_nethogs_line` is total; every skipped line (empty after
trimming, refresh marker, fewer than 3 tab-separated fields, or a
numeric-parse failure on either byte field) returns `(none, none, 0, 0)`, and
whenever the first component is non-`none` it is a non-empty string. -/
theorem parse_nethogs_line_total (line : String) :
    (∀ a : String, (parseNethogsLine line).1 = some a → a ≠ "") ∧
    ((pyStrip line).toList.isEmpty = true ∨
        "Refreshing".toList.isPrefixOf (pyStrip line).toList = true ∨
        (pySplit '\t' (pyStrip line)).length < 3 ∨
        pyFloatOpt ((pySplit '\t' (pyStrip line)).getD 1 "") = none ∨
        pyFloatOpt ((pySplit '\t' (pyStrip line)).getD 2 "") = none →
      parseNethogsLine line = (none, none, 0, 0)) := by
  constructor
  · intro a ha
    simp only [parseNethogsLine] at ha
    split at ha
    · simp at ha
    · split at ha
      · simp at ha
      · split at ha
        · simp only [Prod.fst] at ha
          exact (Option.some_inj.mp ha) ▸ validateAppName_ne_empty _
        · simp at ha
  · intro h
    simp only [parseNethogsLine]
    split
    · rfl
    · rename_i houter
      rw [Bool.or_eq_true, not_or] at houter
      split
      · rfl
      · rename_i hlen
        rcases h with h | h | h | h | h
        · exact absurd h houter.1
        · exact absurd h houter.2
        · exact absurd h hlen
        · split
          · rename_i sKB rKB heq1 heq2
            rw [h] at heq1
            cases heq1
          · rfl
        · split
          · rename_i sKB rKB heq1 heq2
            rw [h] at heq2
            cases heq2
          · rfl

/-- Witness for C10: the non-empty-name clause on a real line and the skip
clause on the empty line. -/
theorem parse_nethogs_line_total_witness :
    "x" ≠ "" ∧ parseNethogsLine "" = (none, none, 0, 0) :=
  ⟨(parse_nethogs_line_total "x\t1.0\t2.0").1 "x" (by decide),
   (parse_nethogs_line_total "").2 (Or.inl (by decide))⟩

/-! ## Claims about retention cleanup and the webhook log -/

/-- Claim C9: `cleanup_old_data` deletes exactly the traffic rows whose
timestamp is strictly older than the current time minus the retention window,
leaves every other row unchanged (the kept rows are a sublist of the
original), and returns the number of deleted rows. -/
theorem cleanup_old_data_frame (rows : List StoredRow) (now : ℤ)
    (days : ℕ) :
    (∀ r : StoredRow, r ∈ (cleanupOldData rows now days).1 ↔
        r ∈ rows ∧ ¬(r.timestamp < now - (days : ℤ) * 86400)) ∧
    (cleanupOldData rows now days).1.Sublist rows ∧
    (cleanupOldData rows now days).2 =
      (rows.filter fun r => decide (r.timestamp < now - (days : ℤ) * 86400)).length ∧
    (cleanupOldData rows now days).2 + (cleanupOldData rows now days).1.length
      = rows.length := by
  refine ⟨?_, ?_, rfl, ?_⟩
  · intro r
    simp [cleanupOldData, List.mem_filter]
  · exact List.filter_sublist rows
  · exact length_filter_add_length_filter_not rows _

/-- Claim C8: every call to `log_webhook_result` appends one entry with its
message truncated to 500 characters (the result is the old log, possibly
trimmed at the front, followed by the new entry), leaves at most 100 entries,
and no sequence of calls ever grows the log beyond 100 entries. -/
theorem log_webhook_result_cap (log : List LogEntry) (status : String)
    (code : ℤ) (message : String) :
    (logWebhookResult log status code message).length
        = min (log.length + 1) 100 ∧
    logWebhookResult log status code message
        = log.drop (log.length + 1 - 100) ++ [⟨status, code, message.take 500⟩] ∧
    ∀ calls : List (String × ℤ × String),
      (calls.foldl (fun l q => logWebhookResult l q.1 q.2.1 q.2.2) log).length
        ≤ max log.length 100 := by
  refine ⟨?_, ?_, ?_⟩
  · simp [logWebhookResult, keepLast]
    omega
  · simp only [logWebhookResult, keepLast, List.length_append,
      List.length_cons, List.length_nil]
    rw [List.drop_append_eq_append_drop]
    have : log.length + 1 - 100 - log.length = 0 := by omega
    rw [this]
    rfl
  · intro calls
    induction calls generalizing log with
    | nil => simp
    | cons q calls ih =>
      have step : (logWebhookResult log q.1 q.2.1 q.2.2).length
          = min (log.length + 1) 100 := by
        simp [logWebhookResult, keepLast]
        omega
      calc (List.foldl (fun l q => logWebhookResult l q.1 q.2.1 q.2.2)
              (logWebhookResult log q.1 q.2.1 q.2.2) calls).length
          ≤ max (logWebhookResult log q.1 q.2.1 q.2.2).length 100 := ih _
        _ ≤ max log.length 100 := by rw [step]; omega

/-! ## Claims about the traffic buffer -/

lemma bufLookup_bufAdd (buf : TrafficBufferState) (op : AddOp) (app : String) :
    bufLookup (bufAdd buf op) app =
      if op.app = app then
        some (entryAdd ((bufLookup buf app).getD ⟨0, 0, []⟩) op)
      else bufLookup buf app := by
  induction buf with
  | nil =>
    by_cases h : op.app = app <;> simp [bufAdd, bufLookup, h]
  | cons pe rest ih =>
    obtain ⟨a, e⟩ := pe
    by_cases h1 : a = op.app <;> by_cases h2 : a = app
    · simp [bufAdd, bufLookup, h1, h2, show op.app = app from h1 ▸ h2]
    · simp [bufAdd, bufLookup, h1, h2,
        show op.app ≠ app from fun hx => h2 (h1.trans hx)]
    · simp [bufAdd, bufLookup, h1, h2,
        show op.app ≠ app from fun hx => h1 (h2.trans hx.symm),
        show app ≠ op.app from fun hx => h1 (h2.trans hx)]
    · simp [bufAdd, bufLookup, h1, h2, ih]

lemma sentOf_bufAdd (buf : TrafficBufferState) (op : AddOp) (app : String) :
    sentOf (bufAdd buf op) app
      = sentOf buf app + if op.app = app then op.sent else 0 := by
  by_cases h : op.app = app
  · simp only [sentOf, bufLookup_bufAdd, if_pos h]
    cases bufLookup buf app <;> simp [entryAdd]
  · simp [sentOf, bufLookup_bufAdd, h]

lemma recvOf_bufAdd (buf : TrafficBufferState) (op : AddOp) (app : String) :
    recvOf (bufAdd buf op) app
      = recvOf buf app + if op.app = app then op.recv else 0 := by
  by_cases h : op.app = app
  · simp only [recvOf, bufLookup_bufAdd, if_pos h]
    cases bufLookup buf app <;> simp [entryAdd]
  · simp [recvOf, bufLookup_bufAdd, h]

lemma mem_addIp (ips : List String) (o : Option String) (ip : String) :
    ip ∈ addIp ips o ↔ ip ∈ ips ∨ (o = some ip ∧ ip ≠ "") := by
  cases o with
  | none => simp [addIp]
  | some v =>
    by_cases hv : v = ""
    · subst hv
      simp only [addIp, if_pos rfl]
      constructor
      · exact Or.inl
      · rintro (h | ⟨hvv, hne⟩)
        · exact h
        · exact absurd (Option.some_inj.mp hvv).symm hne
    · simp only [addIp, if_neg hv]
      by_cases hm : v ∈ ips
      · simp only [if_pos hm]
        constructor
        · exact Or.inl
        · rintro (h | ⟨hvv, hne⟩)
          · exact h
          · exact (Option.some_inj.mp hvv) ▸ hm
      · simp only [if_neg hm, List.mem_append, List.mem_singleton]
        constructor
        · rintro (h | h)
          · exact Or.inl h
          · exact Or.inr ⟨by rw [h], by rw [h]; exact hv⟩
        · rintro (h | ⟨hvv, hne⟩)
          · exact Or.inl h
          · exact Or.inr (Option.some_inj.mp hvv).symm

lemma bufHasIp_bufAdd (buf : TrafficBufferState) (op : AddOp) (app ip : String) :
    bufHasIp (bufAdd buf op) app ip = true ↔
      (bufHasIp buf app ip = true ∨ (op.app = app ∧ op.ip = some ip ∧ ip ≠ "")) := by
  unfold bufHasIp
  rw [bufLookup_bufAdd]
  by_cases h : op.app = app
  · rw [if_pos h]
    cases hl : bufLookup buf app with
    | none => simp [entryAdd, mem_addIp, h]
    | some e => simp [entryAdd, mem_addIp, h]
  · rw [if_neg h]
    simp [h]

lemma sentOf_foldl (ops : List AddOp) (buf : TrafficBufferState) (app : String) :
    sentOf (ops.foldl bufAdd buf) app
      = sentOf buf app + ((ops.filter fun o => o.app = app).map AddOp.sent).sum := by
  induction ops generalizing buf with
  | nil => simp
  | cons o ops ih =>
    rw [List.foldl_cons, ih, sentOf_bufAdd]
    by_cases h : o.app = app
    · simp [List.filter_cons, h, add_assoc]
    · simp [List.filter_cons, h]

lemma recvOf_foldl (ops : List AddOp) (buf : TrafficBufferState) (app : String) :
    recvOf (ops.foldl bufAdd buf) app
      = recvOf buf app + ((ops.filter fun o => o.app = app).map AddOp.recv).sum := by
  induction ops generalizing buf with
  | nil => simp
  | cons o ops ih =>
    rw [List.foldl_cons, ih, recvOf_bufAdd]
    by_cases h : o.app = app
    · simp [List.filter_cons, h, add_assoc]
    · simp [List.filter_cons, h]

lemma bufHasIp_foldl (ops : List AddOp) (buf : TrafficBufferState) (app ip : String) :
    bufHasIp (ops.foldl bufAdd buf) app ip = true ↔
      (bufHasIp buf app ip = true ∨
        ∃ o ∈ ops, o.app = app ∧ o.ip = some ip ∧ ip ≠ "") := by
  induction ops generalizing buf with
  | nil => simp
  | cons o ops ih =>
    rw [List.foldl_cons, ih, bufHasIp_bufAdd]
    constructor
    · rintro ((h | h) | h)
      · exact Or.inl h
      · exact Or.inr ⟨o, List.mem_cons_self o ops, h⟩
      · obtain ⟨o2, hmem, hrest⟩ := h
        exact Or.inr ⟨o2, List.mem_cons_of_mem o hmem, hrest⟩
    · rintro (h | ⟨o2, hmem, hrest⟩)
      · exact Or.inl (Or.inl h)
      · rcases List.mem_cons.mp hmem with rfl | hmem2
        · exact Or.inl (Or.inr hrest)
        · exact Or.inr ⟨o2, hmem2, hrest⟩

/-- Claim C1 (amended): for any sequence of `add(app, sent, recv, ip)` calls
followed by one `flush()`, the flushed per-app sent and recv totals equal the
exact sum of the amounts added for that app, and its IP set equals the set of
non-null, non-empty IPs added for it (Python truthiness also drops an empty
string); `flush()` on an empty buffer returns an empty map and never errors,
and after any `flush()` the buffer is empty. -/
theorem traffic_buffer_flush_exact (ops : List AddOp) (app ip : String) :
    sentOf (bufRun ops) app
        = ((ops.filter fun o => o.app = app).map AddOp.sent).sum ∧
    recvOf (bufRun ops) app
        = ((ops.filter fun o => o.app = app).map AddOp.recv).sum ∧
    (bufHasIp (bufRun ops) app ip = true ↔
      ∃ o ∈ ops, o.app = app ∧ o.ip = some ip ∧ ip ≠ "") ∧
    bufFlush (bufRun ops) = (bufRun ops, []) ∧
    bufIsEmpty (bufFlush (bufRun ops)).2 = true ∧
    bufFlush ([] : TrafficBufferState) = ([], []) := by
  refine ⟨?_, ?_, ?_, rfl, rfl, rfl⟩
  · simpa [sentOf, bufLookup] using sentOf_foldl ops [] app
  · simpa [recvOf, bufLookup] using recvOf_foldl ops [] app
  · rw [bufRun, bufHasIp_foldl]
    simp [bufHasIp, bufLookup]

/-- Counterexample for C1 as stated: `add("app", 1, 1, "")` adds a non-null
IP (the empty string), yet the flushed IP set does not contain it — the code
tests Python truthiness, not nullness. -/
theorem traffic_buffer_empty_ip_counterexample :
    some "" ≠ (none : Option String) ∧
    bufHasIp (bufRun [⟨"app", 1, 1, some ""⟩]) "app" "" = false := by
  constructor
  · simp
  · rfl

/-! ## Claims about persisted-row multiplicity -/

/-- Claim C7: an app entry whose sent and recv are both zero produces no
persisted row; an entry with positive traffic and at least one observed IP
produces exactly one row per IP (in order); and an entry with positive
traffic and no observed IP produces exactly one row with a null IP. -/
theorem save_traffic_row_multiplicity (app : String) (sent recv : ℚ)
    (ips : List String) :
    (sent = 0 ∧ recv = 0 → saveAppRows app sent recv ips = []) ∧
    (0 < sent ∨ 0 < recv → ips ≠ [] →
      (saveAppRows app sent recv ips).map PersistRow.remote_ip = ips.map some) ∧
    (0 < sent ∨ 0 < recv → ips ≠ [] →
      (saveAppRows app sent recv ips).length = ips.length) ∧
    (0 < sent ∨ 0 < recv → ips = [] →
      saveAppRows app sent recv ips = [⟨app, none, pyInt sent, pyInt recv⟩]) := by
  refine ⟨?_, ?_, ?_, ?_⟩
  · rintro ⟨rfl, rfl⟩
    simp [saveAppRows]
  · intro hpos hne
    rw [saveAppRows, if_pos hpos, if_neg hne, List.map_map]
    have hfun : (PersistRow.remote_ip ∘ fun p : ℕ × String =>
        (⟨app, some p.2,
          pyInt (pyFloorDiv sent ips.length) +
            (if (p.1 : ℤ) < pyInt sent - pyInt (pyFloorDiv sent ips.length) * ips.length
             then 1 else 0),
          pyInt (pyFloorDiv recv ips.length) +
            (if (p.1 : ℤ) < pyInt recv - pyInt (pyFloorDiv recv ips.length) * ips.length
             then 1 else 0)⟩ : PersistRow))
        = (some ∘ Prod.snd) := rfl
    rw [hfun, ← List.map_map, List.enum_map_snd]
  · intro hpos hne
    rw [saveAppRows, if_pos hpos, if_neg hne]
    simp
  · intro hpos he
    rw [saveAppRows, if_pos hpos, if_pos he]

/-- Witness for C7: the three branches at concrete entries. -/
theorem save_traffic_row_multiplicity_witness :
    saveAppRows "a" 0 0 ["x"] = [] ∧
    (saveAppRows "a" 5 3 ["x", "y"]).map PersistRow.remote_ip
        = [some "x", some "y"] ∧
    saveAppRows "a" 5 3 [] = [⟨"a", none, pyInt 5, pyInt 3⟩] :=
  ⟨(save_traffic_row_multiplicity "a" 0 0 ["x"]).1 ⟨rfl, rfl⟩,
   (save_traffic_row_multiplicity "a" 5 3 ["x", "y"]).2.1
     (Or.inl (by decide)) (by simp),
   (save_traffic_row_multiplicity "a" 5 3 []).2.2.2 (Or.inl (by decide)) rfl⟩

/-! ## Claims about the webhook sender -/

lemma sendFrom_zero (outcomes : ℕ → AttemptOutcome) (k : ℕ) :
    sendFrom outcomes k 0 = (false, 0, 0) := rfl

lemma sendFrom_succ (outcomes : ℕ → AttemptOutcome) (k r : ℕ) :
    sendFrom outcomes k (r + 1) =
      if attemptOk (outcomes k) = true then (true, 1, 0)
      else ((sendFrom outcomes (k + 1) r).1,
            (sendFrom outcomes (k + 1) r).2.1 + 1,
            (sendFrom outcomes (k + 1) r).2.2 + if r = 0 then 0 else 1) := rfl

lemma sendFrom_attempts_le (outcomes : ℕ → AttemptOutcome) (k r : ℕ) :
    (sendFrom outcomes k r).2.1 ≤ r := by
  induction r generalizing k with
  | zero => simp [sendFrom_zero]
  | succ r ih =>
    rw [sendFrom_succ]
    by_cases ha : attemptOk (outcomes k) = true
    · rw [if_pos ha]
      dsimp
      omega
    · rw [if_neg ha]
      dsimp
      have := ih (k + 1)
      omega

lemma sendFrom_attempts_pos (outcomes : ℕ → AttemptOutcome) (k r : ℕ) :
    1 ≤ (sendFrom outcomes k (r + 1)).2.1 := by
  rw [sendFrom_succ]
  by_cases ha : attemptOk (outcomes k) = true
  · rw [if_pos ha]
  · rw [if_neg ha]
    dsimp
    omega

lemma sendFrom_true_attempts_pos (outcomes : ℕ → AttemptOutcome) (k r : ℕ)
    (h : (sendFrom outcomes k r).1 = true) : 1 ≤ (sendFrom outcomes k r).2.1 := by
  cases r with
  | zero => rw [sendFrom_zero] at h; cases h
  | succ r => exact sendFrom_attempts_pos outcomes k r

lemma sendFrom_sleeps (outcomes : ℕ → AttemptOutcome) (k r : ℕ) :
    (sendFrom outcomes k r).2.2 = (sendFrom outcomes k r).2.1 - 1 := by
  induction r generalizing k with
  | zero => rfl
  | succ r ih =>
    rw [sendFrom_succ]
    by_cases ha : attemptOk (outcomes k) = true
    · rw [if_pos ha]
      rfl
    · rw [if_neg ha]
      dsimp
      have h1 := ih (k + 1)
      cases r with
      | zero => rfl
      | succ r2 =>
        rw [if_neg (Nat.succ_ne_zero r2)]
        have hp := sendFrom_attempts_pos outcomes (k + 1) r2
        omega

lemma sendFrom_true_spec (outcomes : ℕ → AttemptOutcome) (k r : ℕ)
    (h : (sendFrom outcomes k r).1 = true) :
    attemptOk (outcomes (k + ((sendFrom outcomes k r).2.1 - 1))) = true ∧
    ∀ j < (sendFrom outcomes k r).2.1 - 1, attemptOk (outcomes (k + j)) = false := by
  induction r generalizing k with
  | zero => rw [sendFrom_zero] at h; cases h
  | succ r ih =>
    by_cases ha : attemptOk (outcomes k) = true
    · rw [sendFrom_succ, if_pos ha]
      dsimp
      exact ⟨by simpa using ha, by omega⟩
    · have haf : attemptOk (outcomes k) = false := by
        revert ha; cases attemptOk (outcomes k) <;> simp
      rw [sendFrom_succ, if_neg ha] at h ⊢
      dsimp at h ⊢
      have hrec := ih (k + 1) h
      have hpos := sendFrom_true_attempts_pos outcomes (k + 1) r h
      constructor
      · have harith : k + (sendFrom outcomes (k + 1) r).2.1
            = (k + 1) + ((sendFrom outcomes (k + 1) r).2.1 - 1) := by omega
        rw [harith]
        exact hrec.1
      · intro j hj
        cases j with
        | zero => simpa using haf
        | succ j2 =>
          have harith : k + (j2 + 1) = (k + 1) + j2 := by omega
          rw [harith]
          exact hrec.2 j2 (by omega)

lemma sendFrom_false_spec (outcomes : ℕ → AttemptOutcome) (k r : ℕ)
    (h : (sendFrom outcomes k r).1 = false) :
    (sendFrom outcomes k r).2.1 = r ∧
    ∀ j < r, attemptOk (outcomes (k + j)) = false := by
  induction r generalizing k with
  | zero => exact ⟨rfl, by omega⟩
  | succ r ih =>
    by_cases ha : attemptOk (outcomes k) = true
    · rw [sendFrom_succ, if_pos ha] at h
      cases h
    · have haf : attemptOk (outcomes k) = false := by
        revert ha; cases attemptOk (outcomes k) <;> simp
      rw [sendFrom_succ, if_neg ha] at h ⊢
      dsimp at h ⊢
      have hrec := ih (k + 1) h
      refine ⟨by omega, ?_⟩
      intro j hj
      cases j with
      | zero => simpa using haf
      | succ j2 =>
        have harith : k + (j2 + 1) = (k + 1) + j2 := by omega
        rw [harith]
        exact hrec.2 j2 (by omega)

lemma attemptOk_eq_ok2xx (o : AttemptOutcome) : attemptOk o = ok2xx o := by
  cases o <;> rfl

/-- Claim C5 (amended): `WebhookSender.send` makes at most `max_retries`
attempts, sleeps exactly once between consecutive failed attempts and never
after the last one (sleeps = attempts − 1), returns true as soon as an
attempt succeeds — success being a 2xx HTTP status, since httpx
`raise_for_status` raises on any non-2xx response — without further
attempts, and returns false exactly when every attempt fails with a network
error or a non-2xx status. -/
theorem webhook_sender_send_retries (outcomes : ℕ → AttemptOutcome) (N : ℕ) :
    (sendRun outcomes N).2.1 ≤ N ∧
    (sendRun outcomes N).2.2 = (sendRun outcomes N).2.1 - 1 ∧
    ((sendRun outcomes N).1 = true →
      ok2xx (outcomes ((sendRun outcomes N).2.1 - 1)) = true ∧
      ∀ j < (sendRun outcomes N).2.1 - 1, ok2xx (outcomes j) = false) ∧
    ((sendRun outcomes N).1 = false →
      (sendRun outcomes N).2.1 = N ∧ ∀ j < N, ok2xx (outcomes j) = false) ∧
    ((sendRun outcomes N).1 = true ↔ ∃ i, i < N ∧ ok2xx (outcomes i) = true) := by
  have hok : ∀ i, attemptOk (outcomes i) = ok2xx (outcomes i) :=
    fun i => attemptOk_eq_ok2xx (outcomes i)
  simp only [sendRun]
  refine ⟨sendFrom_attempts_le outcomes 0 N, sendFrom_sleeps outcomes 0 N,
    ?_, ?_, ?_⟩
  · intro h
    have hspec := sendFrom_true_spec outcomes 0 N h
    simp only [Nat.zero_add] at hspec
    refine ⟨?_, ?_⟩
    · rw [← hok]
      exact hspec.1
    · intro j hj
      rw [← hok]
      exact hspec.2 j hj
  · intro h
    have hspec := sendFrom_false_spec outcomes 0 N h
    simp only [Nat.zero_add] at hspec
    refine ⟨hspec.1, ?_⟩
    intro j hj
    rw [← hok]
    exact hspec.2 j hj
  · constructor
    · intro h
      have hspec := sendFrom_true_spec outcomes 0 N h
      simp only [Nat.zero_add] at hspec
      have hpos := sendFrom_true_attempts_pos outcomes 0 N h
      have hle := sendFrom_attempts_le outcomes 0 N
      refine ⟨(sendFrom outcomes 0 N).2.1 - 1, by omega, ?_⟩
      rw [← hok]
      exact hspec.1
    · rintro ⟨i, hi, hoki⟩
      by_contra hfalse
      have hf : (sendFrom outcomes 0 N).1 = false := by
        revert hfalse; cases (sendFrom outcomes 0 N).1 <;> simp
      have hspec := sendFrom_false_spec outcomes 0 N hf
      have hcontra := hspec.2 i hi
      rw [Nat.zero_add, hok i] at hcontra
      rw [hcontra] at hoki
      cases hoki

/-- Counterexample for C5 as stated: a 302 redirect is a success per the
claim (2xx/3xx), yet with a 302 response on every attempt the send makes all
3 attempts and returns false — httpx `raise_for_status` raises on any
non-2xx response. -/
theorem webhook_sender_3xx_counterexample :
    ok23 (AttemptOutcome.response 302) = true ∧
    (sendRun (fun _ => AttemptOutcome.response 302) 3).1 = false ∧
    (sendRun (fun _ => AttemptOutcome.response 302) 3).2.1 = 3 := by
  decide

/-- Witness for C5: a 500 response followed by a 204 response, with the
default 3 retries: the send succeeds at the second attempt. -/
theorem webhook_sender_send_retries_witness :
    (sendRun (fun i => if i = 0 then AttemptOutcome.response 500
      else AttemptOutcome.response 204) 3).1 = true :=
  (webhook_sender_send_retries
    (fun i => if i = 0 then AttemptOutcome.response 500
      else AttemptOutcome.response 204) 3).2.2.2.2.mpr
    ⟨1, by omega, by decide⟩

/-! ## Claims about the webhook worker -/

/-- Claim C6: on a wakeup with the webhook enabled and configured, the worker
sends exactly when the elapsed time since `last_sent` is at least the
configured interval (an absent `last_sent` counts as immediately due), and
never sends earlier; with interval = 30 minutes, a `last_sent` 10 minutes ago
produces no send, while a `last_sent` 31 minutes ago produces exactly one
send after which `last_sent` is updated to the send time. -/
theorem webhook_worker_schedule (c : WebhookCfg) (now : ℤ)
    (h : cfgConfigured c = true) :
    ((workerTick c now true).1 = 1 ↔
      (c.last_sent = none ∨
        ∃ last, c.last_sent = some last ∧ c.interval_minutes * 60 ≤ now - last)) ∧
    (∀ last, c.last_sent = some last → now - last < c.interval_minutes * 60 →
      workerTick c now true = (0, c)) ∧
    workerTick ⟨some "u", 30, true, some (now - 600)⟩ now true
        = (0, ⟨some "u", 30, true, some (now - 600)⟩) ∧
    workerTick ⟨some "u", 30, true, some (now - 1860)⟩ now true
        = (1, ⟨some "u", 30, true, some now⟩) := by
  refine ⟨?_, ?_, ?_, ?_⟩
  · rw [workerTick, if_pos h]
    cases hl : c.last_sent with
    | none => simp [shouldSend, hl]
    | some last =>
      by_cases hs : c.interval_minutes * 60 ≤ now - last
      · simp [shouldSend, hl, hs]
      · simp [shouldSend, hl, hs]
  · intro last hl hlt
    have hss : shouldSend c now = false := by
      simp only [shouldSend, hl]
      rw [decide_eq_false_iff_not]
      omega
    rw [workerTick, if_pos h, hss]
    simp
  · have hcfg : cfgConfigured ⟨some "u", 30, true, some (now - 600)⟩ = true := rfl
    have hss : shouldSend ⟨some "u", 30, true, some (now - 600)⟩ now = false := by
      simp only [shouldSend]
      rw [decide_eq_false_iff_not]
      omega
    rw [workerTick, if_pos hcfg, hss]
    simp
  · have hcfg : cfgConfigured ⟨some "u", 30, true, some (now - 1860)⟩ = true := rfl
    have hss : shouldSend ⟨some "u", 30, true, some (now - 1860)⟩ now = true := by
      simp only [shouldSend]
      rw [decide_eq_true_eq]
      omega
    rw [workerTick, if_pos hcfg, hss]
    simp

/-- Witness for C6: a configured webhook that has never sent is immediately
due. -/
theorem webhook_worker_schedule_witness :
    (workerTick ⟨some "u", 60, true, none⟩ 0 true).1 = 1 :=
  (webhook_worker_schedule ⟨some "u", 60, true, none⟩ 0 (by decide)).1.mpr
    (Or.inl rfl)

/-! ## Claims about split-by-IP conservation -/

lemma pyInt_intCast (z : ℤ) : pyInt (z : ℚ) = z := by
  unfold pyInt
  split_ifs <;> simp

lemma pyInt_natCast (n : ℕ) : pyInt (n : ℚ) = (n : ℤ) := by
  rw [show ((n : ℕ) : ℚ) = (((n : ℕ) : ℤ) : ℚ) by norm_cast, pyInt_intCast]

lemma pyFloorDiv_natCast (a n : ℕ) :
    pyInt (pyFloorDiv (a : ℚ) (n : ℚ)) = ((a / n : ℕ) : ℤ) := by
  have h1 : ⌊((a : ℚ) / (n : ℚ))⌋ = (a : ℤ) / ((n : ℕ) : ℤ) := by
    have hcast : ((a : ℕ) : ℚ) = (((a : ℕ) : ℤ) : ℚ) := by push_cast; ring
    rw [hcast, Rat.floor_intCast_div_natCast]
  have h2 : (a : ℤ) / ((n : ℕ) : ℤ) = ((a / n : ℕ) : ℤ) := (Int.ofNat_ediv a n).symm
  rw [pyFloorDiv, h1, h2, pyInt_intCast]

lemma sum_map_add_int (l : List (ℕ × String)) (f g : ℕ × String → ℤ) :
    (l.map fun x => f x + g x).sum = (l.map f).sum + (l.map g).sum := by
  induction l with
  | nil => simp
  | cons a l ih =>
    simp only [List.map_cons, List.sum_cons, ih]
    ring

lemma sum_map_const_int (l : List (ℕ × String)) (b : ℤ) :
    (l.map fun _ => b).sum = l.length * b := by
  induction l with
  | nil => simp
  | cons a l ih =>
    simp only [List.map_cons, List.sum_cons, List.length_cons, ih]
    push_cast
    ring

lemma sum_enumFrom_ind (l : List String) (k r : ℕ) :
    ((List.enumFrom k l).map fun p => if p.1 < r then (1 : ℤ) else 0).sum
      = ((min r (k + l.length) - min r k : ℕ) : ℤ) := by
  induction l generalizing k with
  | nil => simp
  | cons a l ih =>
    simp only [List.enumFrom, List.map_cons, List.sum_cons, List.length_cons]
    rw [ih (k + 1)]
    by_cases hk : k < r
    · rw [if_pos hk]
      omega
    · rw [if_neg hk]
      omega

lemma saveAppRows_natCast (app : String) (S R : ℕ) (ips : List String)
    (hpos : 0 < S ∨ 0 < R) (hne : ips ≠ []) :
    saveAppRows app (S : ℚ) (R : ℚ) ips = ips.enum.map fun p =>
      ⟨app, some p.2,
        ((S / ips.length : ℕ) : ℤ) + (if p.1 < S % ips.length then 1 else 0),
        ((R / ips.length : ℕ) : ℤ) + (if p.1 < R % ips.length then 1 else 0)⟩ := by
  have hpos2 : (0 : ℚ) < (S : ℚ) ∨ (0 : ℚ) < (R : ℚ) := by
    rcases hpos with h | h
    · exact Or.inl (by exact_mod_cast h)
    · exact Or.inr (by exact_mod_cast h)
  rw [saveAppRows, if_pos hpos2, if_neg hne]
  have hS := pyFloorDiv_natCast S ips.length
  have hR := pyFloorDiv_natCast R ips.length
  have hSi := pyInt_natCast S
  have hRi := pyInt_natCast R
  have hremS : pyInt (S : ℚ)
        - pyInt (pyFloorDiv (S : ℚ) (ips.length : ℚ)) * (ips.length : ℤ)
      = ((S % ips.length : ℕ) : ℤ) := by
    rw [hSi, hS]
    have hdmc : (ips.length : ℤ) * ((S / ips.length : ℕ) : ℤ)
        + ((S % ips.length : ℕ) : ℤ) = (S : ℤ) := by
      exact_mod_cast Nat.div_add_mod S ips.length
    linarith [hdmc]
  have hremR : pyInt (R : ℚ)
        - pyInt (pyFloorDiv (R : ℚ) (ips.length : ℚ)) * (ips.length : ℤ)
      = ((R % ips.length : ℕ) : ℤ) := by
    rw [hRi, hR]
    have hdmc : (ips.length : ℤ) * ((R / ips.length : ℕ) : ℤ)
        + ((R % ips.length : ℕ) : ℤ) = (R : ℤ) := by
      exact_mod_cast Nat.div_add_mod R ips.length
    linarith [hdmc]
  congr 1
  funext p
  rw [hremS, hremR, hS, hR]
  simp only [Nat.cast_lt]

/-- Claim C2: for every app entry with integer totals (S, R) and at least one
observed IP passed to `save_traffic`, each persisted row gets
base = floor(total / N) plus one extra unit for the first `remainder` IPs in
iteration order, and the persisted per-IP bytes_sent values sum to S and the
bytes_recv values sum to R, for all non-negative integers S, R and every
N >= 1. -/
theorem save_traffic_split_conservation (app : String) (S R : ℕ)
    (ips : List String) (h : 1 ≤ ips.length) :
    ((saveAppRows app (S : ℚ) (R : ℚ) ips).map PersistRow.bytes_sent).sum
        = (S : ℤ) ∧
    ((saveAppRows app (S : ℚ) (R : ℚ) ips).map PersistRow.bytes_recv).sum
        = (R : ℤ) ∧
    (0 < S ∨ 0 < R →
      saveAppRows app (S : ℚ) (R : ℚ) ips = ips.enum.map fun p =>
        ⟨app, some p.2,
          ((S / ips.length : ℕ) : ℤ) + (if p.1 < S % ips.length then 1 else 0),
          ((R / ips.length : ℕ) : ℤ) + (if p.1 < R % ips.length then 1 else 0)⟩) := by
  have hn : 0 < ips.length := h
  have hne : ips ≠ [] := by
    intro he
    rw [he] at hn
    simp at hn
  by_cases hpos : 0 < S ∨ 0 < R
  · have hshape := saveAppRows_natCast app S R ips hpos hne
    refine ⟨?_, ?_, fun _ => hshape⟩
    · rw [hshape, List.map_map]
      have hcomp : (PersistRow.bytes_sent ∘ fun p : ℕ × String =>
          (⟨app, some p.2,
            ((S / ips.length : ℕ) : ℤ) + (if p.1 < S % ips.length then 1 else 0),
            ((R / ips.length : ℕ) : ℤ) + (if p.1 < R % ips.length then 1 else 0)⟩
            : PersistRow))
          = fun p : ℕ × String =>
            ((S / ips.length : ℕ) : ℤ)
              + (if p.1 < S % ips.length then (1 : ℤ) else 0) := rfl
      rw [hcomp,
        sum_map_add_int ips.enum (fun _ => ((S / ips.length : ℕ) : ℤ))
          (fun p => if p.1 < S % ips.length then (1 : ℤ) else 0),
        sum_map_const_int, List.enum_length,
        show ips.enum = List.enumFrom 0 ips from rfl, sum_enumFrom_ind]
      have hmod : S % ips.length < ips.length := Nat.mod_lt S hn
      rw [Nat.zero_add, Nat.min_eq_left hmod.le, Nat.min_zero, Nat.sub_zero]
      have hdm := Nat.div_add_mod S ips.length
      exact_mod_cast hdm
    · rw [hshape, List.map_map]
      have hcomp : (PersistRow.bytes_recv ∘ fun p : ℕ × String =>
          (⟨app, some p.2,
            ((S / ips.length : ℕ) : ℤ) + (if p.1 < S % ips.length then 1 else 0),
            ((R / ips.length : ℕ) : ℤ) + (if p.1 < R % ips.length then 1 else 0)⟩
            : PersistRow))
          = fun p : ℕ × String =>
            ((R / ips.length : ℕ) : ℤ)
              + (if p.1 < R % ips.length then (1 : ℤ) else 0) := rfl
      rw [hcomp,
        sum_map_add_int ips.enum (fun _ => ((R / ips.length : ℕ) : ℤ))
          (fun p => if p.1 < R % ips.length then (1 : ℤ) else 0),
        sum_map_const_int, List.enum_length,
        show ips.enum = List.enumFrom 0 ips from rfl, sum_enumFrom_ind]
      have hmod : R % ips.length < ips.length := Nat.mod_lt R hn
      rw [Nat.zero_add, Nat.min_eq_left hmod.le, Nat.min_zero, Nat.sub_zero]
      have hdm := Nat.div_add_mod R ips.length
      exact_mod_cast hdm
  · have hS0 : S = 0 := by omega
    have hR0 : R = 0 := by omega
    subst hS0
    subst hR0
    refine ⟨?_, ?_, fun hcontra => absurd hcontra hpos⟩
    · simp [saveAppRows]
    · simp [saveAppRows]

/-- Witness for C2: totals (7, 5) split across 3 IPs sum back to (7, 5). -/
theorem save_traffic_split_conservation_witness :
    ((saveAppRows "a" ((7 : ℕ) : ℚ) ((5 : ℕ) : ℚ) ["x", "y", "z"]).map
        PersistRow.bytes_sent).sum = ((7 : ℕ) : ℤ) ∧
    ((saveAppRows "a" ((7 : ℕ) : ℚ) ((5 : ℕ) : ℚ) ["x", "y", "z"]).map
        PersistRow.bytes_recv).sum = ((5 : ℕ) : ℤ) :=
  ⟨(save_traffic_split_conservation "a" 7 5 ["x", "y", "z"] (by decide)).1,
   (save_traffic_split_conservation "a" 7 5 ["x", "y", "z"] (by decide)).2.1⟩
